import Mathlib

/-!
Verification of the core of the json-sculptor JSON editor: the
path-addressed JSON tree mutation engine of
src/client/src/pages/json-editor.tsx (removeMarkedItems, sortArraysByName,
handleSave) and the JSON validation line/column computation of
src/client/src/hooks/use-json-validation.tsx (mirrored by
FileSystemStorage.validateJson on the server).

JSON values are modelled as a tagged union; object entries are kept as a
list of key/value pairs in insertion order, matching the order in which
Object.entries enumerates the keys of a parsed JSON object.  Numeric
payloads are modelled as integers: no claim computes on numbers, they only
ride along as opaque scalars.
-/

/-- A JSON value: null, boolean, number, string, array, or object.  Object
entries are listed in insertion order, which Object.entries preserves and
the transforms must keep. -/
inductive Json where
  | null : Json
  | bool (b : Bool) : Json
  | num (n : Int) : Json
  | str (s : String) : Json
  | arr (elems : List Json) : Json
  | obj (entries : List (String × Json)) : Json

mutual

/-- Decidable equality on Json, written by hand because the automatic
deriving handler does not support this nested inductive. -/
def decEqJson : (a b : Json) → Decidable (a = b)
  | .null, .null => isTrue rfl
  | .bool a, .bool b =>
    if h : a = b then isTrue (by rw [h]) else isFalse (fun he => h (Json.bool.inj he))
  | .num a, .num b =>
    if h : a = b then isTrue (by rw [h]) else isFalse (fun he => h (Json.num.inj he))
  | .str a, .str b =>
    if h : a = b then isTrue (by rw [h]) else isFalse (fun he => h (Json.str.inj he))
  | .arr a, .arr b =>
    match decEqJsonList a b with
    | isTrue h => isTrue (by rw [h])
    | isFalse h => isFalse (fun he => h (Json.arr.inj he))
  | .obj a, .obj b =>
    match decEqJsonObj a b with
    | isTrue h => isTrue (by rw [h])
    | isFalse h => isFalse (fun he => h (Json.obj.inj he))
  | .null, .bool _ => isFalse nofun
  | .null, .num _ => isFalse nofun
  | .null, .str _ => isFalse nofun
  | .null, .arr _ => isFalse nofun
  | .null, .obj _ => isFalse nofun
  | .bool _, .null => isFalse nofun
  | .bool _, .num _ => isFalse nofun
  | .bool _, .str _ => isFalse nofun
  | .bool _, .arr _ => isFalse nofun
  | .bool _, .obj _ => isFalse nofun
  | .num _, .null => isFalse nofun
  | .num _, .bool _ => isFalse nofun
  | .num _, .str _ => isFalse nofun
  | .num _, .arr _ => isFalse nofun
  | .num _, .obj _ => isFalse nofun
  | .str _, .null => isFalse nofun
  | .str _, .bool _ => isFalse nofun
  | .str _, .num _ => isFalse nofun
  | .str _, .arr _ => isFalse nofun
  | .str _, .obj _ => isFalse nofun
  | .arr _, .null => isFalse nofun
  | .arr _, .bool _ => isFalse nofun
  | .arr _, .num _ => isFalse nofun
  | .arr _, .str _ => isFalse nofun
  | .arr _, .obj _ => isFalse nofun
  | .obj _, .null => isFalse nofun
  | .obj _, .bool _ => isFalse nofun
  | .obj _, .num _ => isFalse nofun
  | .obj _, .str _ => isFalse nofun
  | .obj _, .arr _ => isFalse nofun

def decEqJsonList : (a b : List Json) → Decidable (a = b)
  | [], [] => isTrue rfl
  | [], _ :: _ => isFalse nofun
  | _ :: _, [] => isFalse nofun
  | x :: xs, y :: ys =>
    match decEqJson x y with
    | isFalse h => isFalse (fun he => h (List.cons.inj he).1)
    | isTrue h1 =>
      match decEqJsonList xs ys with
      | isTrue h2 => isTrue (by rw [h1, h2])
      | isFalse h2 => isFalse (fun he => h2 (List.cons.inj he).2)

def decEqJsonObj : (a b : List (String × Json)) → Decidable (a = b)
  | [], [] => isTrue rfl
  | [], _ :: _ => isFalse nofun
  | _ :: _, [] => isFalse nofun
  | (k1, v1) :: xs, (k2, v2) :: ys =>
    if hk : k1 = k2 then
      match decEqJson v1 v2 with
      | isFalse h => isFalse (fun he => h (congrArg Prod.snd (List.cons.inj he).1))
      | isTrue h1 =>
        match decEqJsonObj xs ys with
        | isTrue h2 => isTrue (by rw [hk, h1, h2])
        | isFalse h2 => isFalse (fun he => h2 (List.cons.inj he).2)
    else isFalse (fun he => hk (congrArg Prod.fst (List.cons.inj he).1))

end

instance : DecidableEq Json := decEqJson

/-- Path of an array child: basePath + "[" + index + "]", as in the template
literals of removeMarkedItems (json-editor.tsx line 176) and of the
rendering layer that produces the marked paths. -/
def childIdx (basePath : String) (index : Nat) : String :=
  basePath ++ "[" ++ toString index ++ "]"

/-- Path of an object child: basePath ? basePath + "." + key : key
(json-editor.tsx line 180); an empty base path is falsy in JS, so a root
level key is just the key itself. -/
def childKey (basePath : String) (key : String) : String :=
  if basePath = "" then key else basePath ++ "." ++ key

/-!
Delete-by-path (json-editor.tsx lines 172-189, removeMarkedItems).

The source's array branch is

  obj.filter((_, index) => !markedForDeletion.has(`${basePath}[${index}]`))
     .map((item, index) => removeMarkedItems(item, `${basePath}[${index}]`))

so the filter callback receives the original index of each element while the
map callback receives the index of the element in the already filtered
array.  removeFromArr fuses this filter/map pair into one structurally
recursive pass that carries both counters: i is the index in the original
array (used to decide dropping) and j is the index in the rebuilt array
(used to build the recursion path).  The theorem
removeMarkedItems_arr_eq_filter_map below proves the fused definition equal
to the literal filter-then-map form.  The marked set (a JS Set of path
strings tested with has) is modelled as a list of strings tested with
membership.
-/

mutual

/-- Recursive delete-by-path transform, translated from removeMarkedItems. -/
def removeMarkedItems (marked : List String) : Json → String → Json
  | .arr l, basePath => .arr (removeFromArr marked basePath l 0 0)
  | .obj kvs, basePath => .obj (removeFromObj marked basePath kvs)
  | v, _ => v

/-- Array branch of removeMarkedItems: drop elements whose original-index
path is marked, then recurse into each survivor under its rebuilt-array
index path (i = original index, j = rebuilt index). -/
def removeFromArr (marked : List String) (basePath : String) :
    List Json → Nat → Nat → List Json
  | [], _, _ => []
  | x :: xs, i, j =>
    if marked.contains (childIdx basePath i) then
      removeFromArr marked basePath xs (i + 1) j
    else
      removeMarkedItems marked x (childIdx basePath j) ::
        removeFromArr marked basePath xs (i + 1) (j + 1)

/-- Object branch of removeMarkedItems: omit entries whose key path is
marked, keep the others in insertion order with recursively transformed
values. -/
def removeFromObj (marked : List String) (basePath : String) :
    List (String × Json) → List (String × Json)
  | [] => []
  | (k, v) :: xs =>
    if marked.contains (childKey basePath k) then removeFromObj marked basePath xs
    else (k, removeMarkedItems marked v (childKey basePath k)) :: removeFromObj marked basePath xs

end

/-!
Recursive name-sort (json-editor.tsx lines 145-169, sortArraysByName).

An array qualifies when it is non-empty and every element satisfies
typeof item === "object" && item !== null && typeof item.Name === "string";
in this model arrays fail the Name lookup just as a JS array has no Name
property, and null is its own constructor.  A qualifying array is sorted by
(a, b) => a.Name.localeCompare(b.Name) and then each element is recursively
transformed; a non-qualifying array keeps its order and only its elements
are transformed; object values are transformed entrywise.

String.prototype.localeCompare is a host collator, not code of this
repository; it is modelled as code-point (lexicographic) string comparison,
which agrees with the host ordering on the plain ASCII names used in the
specification's examples.

Because the JS sort is a stable sort and the recursive transform preserves
both the Name field and the qualification test (proved below), sorting the
original list and then mapping the transform is the same as mapping the
transform and then sorting; the definition here maps first so that the
recursion is structural, and the theorem sortArraysByName_arr_of_qual
recovers the literal sort-then-map form of the source.
-/

/-- Test inherited from obj.every: the element is a non-null object whose
Name property is a string.  Arrays and scalars fail (a JS array has no Name
property). -/
def isNamedObj : Json → Bool
  | .obj kvs =>
    match kvs.lookup ("Name") with
    | some (.str _) => true
    | _ => false
  | _ => false

/-- hasNameFields check of the source: obj.length > 0 && obj.every(...). -/
def hasNameFields (l : List Json) : Bool :=
  !l.isEmpty && l.all isNamedObj

/-- The Name field read by the sort comparator (only ever applied to values
that pass isNamedObj, where it is the string payload of the Name entry). -/
def nameStr : Json → String
  | .obj kvs =>
    match kvs.lookup ("Name") with
    | some (.str s) => s
    | _ => ""
  | _ => ""

/-- Code-point (lexicographic) comparison of character lists; this is the
model of the host localeCompare collator restricted to "compares at most
zero". -/
def charListLe : List Char → List Char → Bool
  | [], _ => true
  | _ :: _, [] => false
  | c :: cs, d :: ds =>
    if c.toNat < d.toNat then true
    else if d.toNat < c.toNat then false
    else charListLe cs ds

theorem charListLe_refl : (x : List Char) → charListLe x x = true
  | [] => rfl
  | c :: cs => by
    rw [charListLe, if_neg (Nat.lt_irrefl c.toNat), if_neg (Nat.lt_irrefl c.toNat)]
    exact charListLe_refl cs

theorem charListLe_total : (x y : List Char) →
    charListLe x y = true ∨ charListLe y x = true
  | [], _ => Or.inl rfl
  | _ :: _, [] => Or.inr rfl
  | c :: cs, d :: ds => by
    rw [charListLe, charListLe]
    by_cases h1 : c.toNat < d.toNat
    · left; rw [if_pos h1]
    · by_cases h2 : d.toNat < c.toNat
      · right; rw [if_pos h2]
      · rw [if_neg h1, if_neg h2, if_neg h2, if_neg h1]
        exact charListLe_total cs ds

theorem charListLe_trans : (x y z : List Char) → charListLe x y = true →
    charListLe y z = true → charListLe x z = true
  | [], _, _, _, _ => rfl
  | _ :: _, [], _, hxy, _ => nomatch hxy
  | _ :: _, _ :: _, [], _, hyz => nomatch hyz
  | c :: cs, d :: ds, e :: es, hxy, hyz => by
    rw [charListLe] at hxy hyz ⊢
    by_cases h1 : c.toNat < d.toNat
    · by_cases h2 : d.toNat < e.toNat
      · rw [if_pos (Nat.lt_trans h1 h2)]
      · by_cases h3 : e.toNat < d.toNat
        · rw [if_neg h2, if_pos h3] at hyz
          exact absurd hyz Bool.false_ne_true
        · have hde : d.toNat = e.toNat := by omega
          rw [if_pos (hde ▸ h1)]
    · by_cases h4 : d.toNat < c.toNat
      · rw [if_neg h1, if_pos h4] at hxy
        exact absurd hxy Bool.false_ne_true
      · have hcd : c.toNat = d.toNat := by omega
        rw [if_neg h1, if_neg h4] at hxy
        by_cases h2 : d.toNat < e.toNat
        · rw [if_pos (hcd ▸ h2)]
        · by_cases h3 : e.toNat < d.toNat
          · rw [if_neg h2, if_pos h3] at hyz
            exact absurd hyz Bool.false_ne_true
          · have hde : d.toNat = e.toNat := by omega
            rw [if_neg h2] at hyz
            rw [if_neg h3] at hyz
            have hce1 : ¬c.toNat < e.toNat := by omega
            have hce2 : ¬e.toNat < c.toNat := by omega
            rw [if_neg hce1, if_neg hce2]
            exact charListLe_trans cs ds es hxy hyz

/-- Comparator of the source sort, a.Name.localeCompare(b.Name) <= 0, with
localeCompare modelled as code-point comparison (which agrees with the host
collator on the plain ASCII names of the specification's examples). -/
def nameLe (a b : Json) : Prop :=
  charListLe (nameStr a).data (nameStr b).data = true

instance : DecidableRel nameLe := fun a b =>
  inferInstanceAs (Decidable (charListLe (nameStr a).data (nameStr b).data = true))

instance : IsTotal Json nameLe :=
  ⟨fun a b => charListLe_total (nameStr a).data (nameStr b).data⟩

instance : IsTrans Json nameLe :=
  ⟨fun a b c => charListLe_trans (nameStr a).data (nameStr b).data (nameStr c).data⟩

mutual

/-- Recursive name-sort transform, translated from sortArraysByName (with
the sort commuted past the recursive map, see the module comment). -/
def sortArraysByName : Json → Json
  | .arr l =>
    if hasNameFields l then .arr ((sortList l).insertionSort nameLe)
    else .arr (sortList l)
  | .obj kvs => .obj (sortObj kvs)
  | v => v

/-- Elementwise recursion of sortArraysByName over an array. -/
def sortList : List Json → List Json
  | [] => []
  | x :: xs => sortArraysByName x :: sortList xs

/-- Entrywise recursion of sortArraysByName over object entries. -/
def sortObj : List (String × Json) → List (String × Json)
  | [] => []
  | (k, v) :: xs => (k, sortArraysByName v) :: sortObj xs

end

/-!
JSON validation (use-json-validation.tsx lines 13-50, validate; the server
side FileSystemStorage.validateJson computes the identical line/column).

JSON.parse is a host builtin, so the parse attempt is modelled by a
ParseOutcome parameter: success, a SyntaxError whose message may carry a
recoverable character offset (the "at position N" fragment the code
extracts with a regular expression), or any other thrown value.  What the
repository itself computes - the line/column arithmetic on the buffer and
the structured result - is translated literally.
-/

/-- JS String.prototype.split with separator "\n", on the character list of
the buffer: returns the (always non-empty) list of newline-separated
pieces. -/
def splitNl : List Char → List (List Char)
  | [] => [[]]
  | c :: cs =>
    if c = '\n' then [] :: splitNl cs
    else
      match splitNl cs with
      | [] => [[c]]
      | p :: ps => (c :: p) :: ps

/-- Line/column computation of validate:
lines = jsonString.substring(0, position).split('\n');
line = lines.length; column = lines[lines.length - 1].length + 1. -/
def computeLineCol (jsonString : String) (position : Nat) : Nat × Nat :=
  let lines := splitNl (jsonString.data.take position)
  (lines.length, (lines.getLastD []).length + 1)

/-- Structured result of validate: valid flag plus optional error message
and 1-based line/column (absent fields are none). -/
structure ValidationResult where
  valid : Bool
  error : Option String
  line : Option Nat
  column : Option Nat
  deriving DecidableEq

/-- Outcome of the host JSON.parse call: success, a SyntaxError with its
message and the character offset recovered from the message (if any), or a
non-SyntaxError throw. -/
inductive ParseOutcome where
  | ok : ParseOutcome
  | syntaxError (message : String) (position : Option Nat) : ParseOutcome
  | otherError : ParseOutcome

/-- The validate function of use-json-validation.tsx, with the host parse
modelled by the outcome parameter.  Every failure is converted into a
structured result; nothing escapes. -/
def validate (outcome : ParseOutcome) (jsonString : String) : ValidationResult :=
  match outcome with
  | .ok => ⟨true, none, none, none⟩
  | .syntaxError msg pos =>
    let lc : Nat × Nat :=
      match pos with
      | some p => computeLineCol jsonString p
      | none => (1, 1)
    ⟨false, some (msg ++ " (line " ++ toString lc.1 ++ ", column " ++ toString lc.2 ++ ")"),
      some lc.1, some lc.2⟩
  | .otherError => ⟨false, some ("Unknown JSON parsing error"), none, none⟩

/-!
Serialization: JSON.stringify(value, null, 2), the fixed two-space
indentation serializer used by handleSave before persisting.
-/

/-- Lower-case hexadecimal digit. -/
def hexDigit (n : Nat) : Char :=
  if n < 10 then Char.ofNat (48 + n) else Char.ofNat (87 + n)

/-- JSON.stringify escaping of one character inside a string literal. -/
def escapeChar (c : Char) : String :=
  if c = '"' then "\\\""
  else if c = '\\' then "\\\\"
  else if c = Char.ofNat 8 then "\\b"
  else if c = Char.ofNat 12 then "\\f"
  else if c = '\n' then "\\n"
  else if c = '\r' then "\\r"
  else if c = '\t' then "\\t"
  else if c.toNat < 32 then
    "\\u00" ++ String.mk [hexDigit (c.toNat / 16), hexDigit (c.toNat % 16)]
  else String.singleton c

/-- A JSON string literal with its quotes. -/
def quoteString (s : String) : String :=
  "\"" ++ String.join (s.data.map escapeChar) ++ "\""

mutual

/-- JSON.stringify(v, null, 2) at the given accumulated indentation. -/
def stringifyAt (ind : String) : Json → String
  | .null => "null"
  | .bool b => if b then "true" else "false"
  | .num n => toString n
  | .str s => quoteString s
  | .arr l =>
    if l.isEmpty then "[]"
    else
      "[\n" ++
        String.intercalate ",\n"
          ((stringifyList (ind ++ "  ") l).map fun t => ind ++ "  " ++ t) ++
        "\n" ++ ind ++ "]"
  | .obj kvs =>
    if kvs.isEmpty then "\x7b\x7d"
    else
      "\x7b\n" ++
        String.intercalate ",\n"
          ((stringifyObjList (ind ++ "  ") kvs).map fun t => ind ++ "  " ++ t) ++
        "\n" ++ ind ++ "\x7d"

def stringifyList (ind : String) : List Json → List String
  | [] => []
  | x :: xs => stringifyAt ind x :: stringifyList ind xs

def stringifyObjList (ind : String) : List (String × Json) → List String
  | [] => []
  | (k, v) :: xs => (quoteString k ++ ": " ++ stringifyAt ind v) :: stringifyObjList ind xs

end

/-- JSON.stringify(v, null, 2) as called by handleSave. -/
def stringify2 (v : Json) : String := stringifyAt "" v

/-!
Editing-session state and the save flow (json-editor.tsx, handleSave at
lines 190-243 together with saveMutation at lines 44-69).

The React state touched by the save flow is gathered into one record.  The
two network round trips (the validation request and the save request) and
the host JSON.parse are external collaborators, so they enter as
parameters; the user confirming the deletion dialog is assumed (declining
leaves the state untouched and performs nothing).  The transition below
follows the code path of handleSave statement by statement:

  - validation request error (onError): setValidationError(null), nothing
    else changes;
  - validation.valid false: setValidationError(validation.error ||
    "Invalid JSON"), nothing else changes (save aborted);
  - validation.valid true: parsed = JSON.parse(rawContent); a parse throw
    sets validationError = "Failed to parse JSON" and changes nothing else;
    otherwise, if the marked set is non-empty the parsed value is run
    through removeMarkedItems and the marked set is cleared, the result is
    run through sortArraysByName and re-serialized, jsonContent and
    rawContent are replaced by the transformed value/text and
    validationError is cleared - all BEFORE the save request is issued -
    and finally the save request either succeeds (saveMutation.onSuccess
    sets hasUnsavedChanges = false) or fails (saveMutation.onError only
    shows a toast and changes no session state).
-/

/-- The session state of the editor page that the save flow reads or
writes. -/
structure Session where
  rawContent : String
  jsonContent : Json
  markedForDeletion : List String
  hasUnsavedChanges : Bool
  validationError : Option String
  deriving DecidableEq

/-- Outcome of the validation round trip: the request itself failed, or it
returned a verdict with an optional error message. -/
inductive ValidateRequest where
  | failed : ValidateRequest
  | returned (valid : Bool) (error : Option String) : ValidateRequest

/-- The handleSave flow as a transition on the session state.  parsed is
the outcome of JSON.parse(rawContent) (none = throw), persistOk the outcome
of the save request. -/
def handleSave (sess : Session) (vreq : ValidateRequest) (parsed : Option Json)
    (persistOk : Bool) : Session :=
  match vreq with
  | .failed => { sess with validationError := none }
  | .returned false err =>
    { sess with validationError := some (err.getD ("Invalid JSON")) }
  | .returned true _ =>
    match parsed with
    | none => { sess with validationError := some ("Failed to parse JSON") }
    | some v =>
      let deleted : Json :=
        if sess.markedForDeletion.isEmpty then v
        else removeMarkedItems sess.markedForDeletion v ""
      let newMarked : List String :=
        if sess.markedForDeletion.isEmpty then sess.markedForDeletion else []
      let sortedParsed := sortArraysByName deleted
      let sortedContent := stringify2 sortedParsed
      let sess1 : Session :=
        { sess with
          jsonContent := sortedParsed
          rawContent := sortedContent
          validationError := none
          markedForDeletion := newMarked }
      if persistOk then { sess1 with hasUnsavedChanges := false } else sess1

/-!
Bridge between the fused removeFromArr and the literal
filter-then-map-with-new-index form of the source.
-/

/-- removeFromArr is exactly the source's filter over original indices
(enumFrom i) followed by the recursive map over rebuilt indices
(enumFrom j). -/
theorem removeFromArr_eq_filter_map (marked : List String) (basePath : String) :
    (l : List Json) → (i j : Nat) →
    removeFromArr marked basePath l i j =
      ((((l.enumFrom i).filter fun q => !(marked.contains (childIdx basePath q.1))).map
          Prod.snd).enumFrom j).map
        fun q => removeMarkedItems marked q.2 (childIdx basePath q.1)
  | [], _, _ => rfl
  | x :: xs, i, j => by
    rw [List.enumFrom_cons, List.filter_cons]
    cases h : marked.contains (childIdx basePath i) with
    | true =>
      simp only [removeFromArr, h, Bool.not_true, Bool.false_eq_true, if_true, if_false,
        reduceIte]
      exact removeFromArr_eq_filter_map marked basePath xs (i + 1) j
    | false =>
      simp only [removeFromArr, h, Bool.not_false, Bool.false_eq_true, if_false, reduceIte,
        List.map_cons, List.enumFrom_cons]
      exact congrArg _ (removeFromArr_eq_filter_map marked basePath xs (i + 1) (j + 1))

/-- The array case of removeMarkedItems in the literal shape of the source:
filter by the original index path, then recurse with paths rebuilt from the
index in the filtered array. -/
theorem removeMarkedItems_arr_eq_filter_map (marked : List String) (basePath : String)
    (l : List Json) :
    removeMarkedItems marked (.arr l) basePath =
      .arr (((((l.enum).filter fun q => !(marked.contains (childIdx basePath q.1))).map
          Prod.snd).enum).map fun q => removeMarkedItems marked q.2 (childIdx basePath q.1)) := by
  rw [removeMarkedItems]
  exact congrArg _ (removeFromArr_eq_filter_map marked basePath l 0 0)

mutual

/-- With an empty marked set, delete-by-path is the identity. -/
theorem removeMarkedItems_nil_marked : (v : Json) → (basePath : String) →
    removeMarkedItems [] v basePath = v
  | .null, _ => rfl
  | .bool _, _ => rfl
  | .num _, _ => rfl
  | .str _, _ => rfl
  | .arr l, p => by
    rw [removeMarkedItems, removeFromArr_nil_marked l p 0 0]
  | .obj kvs, p => by
    rw [removeMarkedItems, removeFromObj_nil_marked kvs p]

theorem removeFromArr_nil_marked : (l : List Json) → (p : String) → (i j : Nat) →
    removeFromArr [] p l i j = l
  | [], _, _, _ => rfl
  | x :: xs, p, i, j => by
    rw [removeFromArr]
    simp only [List.contains, List.elem_nil, Bool.false_eq_true, if_false, reduceIte]
    rw [removeMarkedItems_nil_marked x (childIdx p j), removeFromArr_nil_marked xs p (i + 1) (j + 1)]

theorem removeFromObj_nil_marked : (kvs : List (String × Json)) → (p : String) →
    removeFromObj [] p kvs = kvs
  | [], _ => rfl
  | (k, v) :: xs, p => by
    rw [removeFromObj]
    simp only [List.contains, List.elem_nil, Bool.false_eq_true, if_false, reduceIte]
    rw [removeMarkedItems_nil_marked v (childKey p k), removeFromObj_nil_marked xs p]

end

/-- If no marked path contains a closing bracket, then no array-index path
is ever marked. -/
theorem contains_childIdx_eq_false (marked : List String)
    (hS : ∀ s ∈ marked, (']' : Char) ∉ s.data) (basePath : String) (i : Nat) :
    marked.contains (childIdx basePath i) = false := by
  cases h : marked.contains (childIdx basePath i) with
  | false => rfl
  | true =>
    exfalso
    have hmem : childIdx basePath i ∈ marked := List.elem_iff.mp h
    have hdata : (']' : Char) ∈ (childIdx basePath i).data := by
      show (']' : Char) ∈ (basePath ++ "[" ++ toString i ++ "]").data
      rw [String.data_append]
      exact List.mem_append_right _ (by decide)
    exact hS _ hmem hdata

mutual

/-- Delete-by-path applied twice is delete-by-path applied once, provided
no marked path mentions an array index (no closing bracket occurs in any
marked path), so that no array element is ever dropped and the rebuilt
indices coincide with the original ones. -/
theorem removeMarkedItems_idem (marked : List String)
    (hS : ∀ s ∈ marked, (']' : Char) ∉ s.data) :
    (v : Json) → (basePath : String) →
    removeMarkedItems marked (removeMarkedItems marked v basePath) basePath =
      removeMarkedItems marked v basePath
  | .null, _ => rfl
  | .bool _, _ => rfl
  | .num _, _ => rfl
  | .str _, _ => rfl
  | .arr l, p => by
    rw [removeMarkedItems, removeMarkedItems, removeFromArr_idem marked hS l p 0]
  | .obj kvs, p => by
    rw [removeMarkedItems, removeMarkedItems, removeFromObj_idem marked hS kvs p]

theorem removeFromArr_idem (marked : List String)
    (hS : ∀ s ∈ marked, (']' : Char) ∉ s.data) :
    (l : List Json) → (p : String) → (j : Nat) →
    removeFromArr marked p (removeFromArr marked p l j j) j j =
      removeFromArr marked p l j j
  | [], _, _ => rfl
  | x :: xs, p, j => by
    have hc := contains_childIdx_eq_false marked hS p j
    rw [removeFromArr]
    simp only [hc, Bool.false_eq_true, if_false, reduceIte]
    rw [removeFromArr]
    simp only [hc, Bool.false_eq_true, if_false, reduceIte]
    rw [removeMarkedItems_idem marked hS x (childIdx p j),
      removeFromArr_idem marked hS xs p (j + 1)]

theorem removeFromObj_idem (marked : List String)
    (hS : ∀ s ∈ marked, (']' : Char) ∉ s.data) :
    (kvs : List (String × Json)) → (p : String) →
    removeFromObj marked p (removeFromObj marked p kvs) = removeFromObj marked p kvs
  | [], _ => rfl
  | (k, v) :: xs, p => by
    cases hc : marked.contains (childKey p k) with
    | true =>
      rw [removeFromObj]
      simp only [hc, if_true, reduceIte]
      exact removeFromObj_idem marked hS xs p
    | false =>
      rw [removeFromObj]
      simp only [hc, Bool.false_eq_true, if_false, reduceIte]
      rw [removeFromObj]
      simp only [hc, Bool.false_eq_true, if_false, reduceIte]
      rw [removeMarkedItems_idem marked hS v (childKey p k),
        removeFromObj_idem marked hS xs p]

end

/-!
Structural lemmas about sortArraysByName: the elementwise recursions are
maps, the transform preserves the Name field and the qualification test,
and the fused definition agrees with the literal sort-then-map form of the
source.
-/

theorem sortList_eq_map : (l : List Json) → sortList l = l.map sortArraysByName
  | [] => rfl
  | x :: xs => by rw [sortList, List.map_cons, sortList_eq_map xs]

theorem sortObj_eq_map : (kvs : List (String × Json)) →
    sortObj kvs = kvs.map fun kv => (kv.1, sortArraysByName kv.2)
  | [] => rfl
  | (k, v) :: xs => by rw [sortObj, List.map_cons, sortObj_eq_map xs]

theorem lookup_sortObj (k : String) : (kvs : List (String × Json)) →
    (sortObj kvs).lookup k = (kvs.lookup k).map sortArraysByName
  | [] => rfl
  | (a, b) :: xs => by
    rw [sortObj]
    simp only [List.lookup_cons]
    cases h : k == a with
    | true => rfl
    | false => exact lookup_sortObj k xs

/-- The recursive transform does not change the Name field read by the
comparator. -/
theorem nameStr_sortArraysByName : (v : Json) → nameStr (sortArraysByName v) = nameStr v
  | .null => rfl
  | .bool _ => rfl
  | .num _ => rfl
  | .str _ => rfl
  | .arr l => by
    simp only [sortArraysByName]
    cases hasNameFields l <;> rfl
  | .obj kvs => by
    simp only [sortArraysByName, nameStr]
    rw [lookup_sortObj]
    cases h : kvs.lookup ("Name") with
    | none => rfl
    | some w =>
      cases w with
      | arr l =>
        simp only [Option.map, sortArraysByName]
        cases hasNameFields l <;> rfl
      | _ => rfl

/-- The recursive transform does not change whether an element qualifies as
a named object. -/
theorem isNamedObj_sortArraysByName : (v : Json) →
    isNamedObj (sortArraysByName v) = isNamedObj v
  | .null => rfl
  | .bool _ => rfl
  | .num _ => rfl
  | .str _ => rfl
  | .arr l => by
    simp only [sortArraysByName]
    cases hasNameFields l <;> rfl
  | .obj kvs => by
    simp only [sortArraysByName, isNamedObj]
    rw [lookup_sortObj]
    cases h : kvs.lookup ("Name") with
    | none => rfl
    | some w =>
      cases w with
      | arr l =>
        simp only [Option.map, sortArraysByName]
        cases hasNameFields l <;> rfl
      | _ => rfl

theorem isEmpty_map {α β : Type} (f : α → β) (l : List α) :
    (l.map f).isEmpty = l.isEmpty := by
  cases l <;> rfl

theorem hasNameFields_map (l : List Json) :
    hasNameFields (l.map sortArraysByName) = hasNameFields l := by
  unfold hasNameFields
  rw [isEmpty_map]
  have : (l.map sortArraysByName).all isNamedObj = l.all isNamedObj := by
    induction l with
    | nil => rfl
    | cons x xs ih =>
      simp only [List.map_cons, List.all_cons, isNamedObj_sortArraysByName, ih]
  rw [this]

theorem hasNameFields_perm {l1 l2 : List Json} (h : l1.Perm l2) :
    hasNameFields l1 = hasNameFields l2 := by
  unfold hasNameFields
  rw [h.isEmpty_eq]
  have : l1.all isNamedObj = l2.all isNamedObj := by
    rw [Bool.eq_iff_iff, List.all_eq_true, List.all_eq_true]
    exact ⟨fun ha x hx => ha x (h.mem_iff.mpr hx), fun ha x hx => ha x (h.mem_iff.mp hx)⟩
  rw [this]

/-- For a qualifying array the fused definition agrees with the literal
source form: sort the original elements by Name, then map the recursive
transform over the sorted array. -/
theorem sortArraysByName_arr_of_qual {l : List Json} (hq : hasNameFields l = true) :
    sortArraysByName (.arr l) = .arr ((l.insertionSort nameLe).map sortArraysByName) := by
  simp only [sortArraysByName, hq, reduceIte, sortList_eq_map]
  have hl : ∀ a ∈ l, ∀ b ∈ l, nameLe a b ↔ nameLe (sortArraysByName a) (sortArraysByName b) := by
    intro a _ b _
    unfold nameLe
    rw [nameStr_sortArraysByName, nameStr_sortArraysByName]
  rw [← List.map_insertionSort nameLe nameLe sortArraysByName l hl]

/-- For a non-qualifying array the transform keeps the order and only maps
the recursion over the elements. -/
theorem sortArraysByName_arr_of_not_qual {l : List Json} (hq : hasNameFields l = false) :
    sortArraysByName (.arr l) = .arr (l.map sortArraysByName) := by
  simp only [sortArraysByName, hq, Bool.false_eq_true, reduceIte, sortList_eq_map]

/-!
Stability of the sort: elements with equal Name keep their original
relative order.  Expressed through filters: restricting the sorted array to
any one Name value yields exactly the restriction of the input, in input
order.
-/

theorem filter_name_orderedInsert (s : String) (x : Json) (l : List Json) :
    (List.orderedInsert nameLe x l).filter (fun y => nameStr y == s) =
      if nameStr x == s then x :: l.filter (fun y => nameStr y == s)
      else l.filter (fun y => nameStr y == s) := by
  rw [List.orderedInsert_eq_take_drop, List.filter_append, List.filter_cons]
  cases hx : nameStr x == s with
  | true =>
    have htw : (List.takeWhile (fun b => decide ¬nameLe x b) l).filter
        (fun y => nameStr y == s) = [] := by
      rw [List.filter_eq_nil_iff]
      intro a ha
      have hna := List.mem_takeWhile_imp ha
      rw [decide_eq_true_iff] at hna
      intro has
      apply hna
      show charListLe (nameStr x).data (nameStr a).data = true
      rw [eq_of_beq has, eq_of_beq hx]
      exact charListLe_refl s.data
    rw [htw]
    have hsplit :
        l.filter (fun y => nameStr y == s) =
          (List.takeWhile (fun b => decide ¬nameLe x b) l).filter (fun y => nameStr y == s) ++
            (List.dropWhile (fun b => decide ¬nameLe x b) l).filter (fun y => nameStr y == s) := by
      rw [← List.filter_append, List.takeWhile_append_dropWhile]
    rw [hsplit, htw]
    simp only [hx, reduceIte, List.nil_append]
  | false =>
    have hsplit :
        l.filter (fun y => nameStr y == s) =
          (List.takeWhile (fun b => decide ¬nameLe x b) l).filter (fun y => nameStr y == s) ++
            (List.dropWhile (fun b => decide ¬nameLe x b) l).filter (fun y => nameStr y == s) := by
      rw [← List.filter_append, List.takeWhile_append_dropWhile]
    rw [hsplit]
    simp only [hx, Bool.false_eq_true, reduceIte]

theorem filter_name_insertionSort (s : String) : (l : List Json) →
    (List.insertionSort nameLe l).filter (fun y => nameStr y == s) =
      l.filter (fun y => nameStr y == s)
  | [] => rfl
  | x :: xs => by
    rw [List.insertionSort, filter_name_orderedInsert, List.filter_cons,
      filter_name_insertionSort s xs]

/-- Mapping a function that fixes every element of a list is the
identity on that list. -/
theorem map_fix {α : Type} (f : α → α) : (l : List α) → (∀ x ∈ l, f x = x) → l.map f = l
  | [], _ => rfl
  | x :: xs, h => by
    rw [List.map_cons, h x (List.mem_cons_self x xs),
      map_fix f xs fun y hy => h y (List.mem_cons_of_mem x hy)]

mutual

/-- The recursive name-sort transform is idempotent. -/
theorem sortArraysByName_idem : (v : Json) →
    sortArraysByName (sortArraysByName v) = sortArraysByName v
  | .null => rfl
  | .bool _ => rfl
  | .num _ => rfl
  | .str _ => rfl
  | .obj kvs => by
    simp only [sortArraysByName]
    rw [sortObj_idem kvs]
  | .arr l => by
    cases hq : hasNameFields l with
    | false =>
      rw [sortArraysByName_arr_of_not_qual hq]
      have hq2 : hasNameFields (l.map sortArraysByName) = false := by
        rw [hasNameFields_map]; exact hq
      rw [sortArraysByName_arr_of_not_qual hq2, List.map_map]
      have hcongr : l.map (sortArraysByName ∘ sortArraysByName) = l.map sortArraysByName :=
        List.map_congr_left fun x hx => sortList_fix l x hx
      rw [hcongr]
    | true =>
      rw [sortArraysByName_arr_of_qual hq]
      have hq1 : hasNameFields ((l.insertionSort nameLe).map sortArraysByName) = true := by
        rw [hasNameFields_map, hasNameFields_perm (List.perm_insertionSort nameLe l)]
        exact hq
      have hfixed : ∀ z ∈ (l.insertionSort nameLe).map sortArraysByName,
          sortArraysByName z = z := by
        intro z hz
        obtain ⟨y, hy, rfl⟩ := List.mem_map.mp hz
        exact sortList_fix l y ((List.mem_insertionSort nameLe).mp hy)
      have hsorted : List.Sorted nameLe ((l.insertionSort nameLe).map sortArraysByName) := by
        have hl : ∀ a ∈ l, ∀ b ∈ l,
            nameLe a b ↔ nameLe (sortArraysByName a) (sortArraysByName b) := by
          intro a _ b _
          unfold nameLe
          rw [nameStr_sortArraysByName, nameStr_sortArraysByName]
        rw [List.map_insertionSort nameLe nameLe sortArraysByName l hl]
        exact List.sorted_insertionSort nameLe (l.map sortArraysByName)
      rw [sortArraysByName_arr_of_qual hq1, hsorted.insertionSort_eq,
        map_fix sortArraysByName _ hfixed]

theorem sortList_fix : (l : List Json) → ∀ x ∈ l,
    sortArraysByName (sortArraysByName x) = sortArraysByName x
  | [] => fun x hx => absurd hx (List.not_mem_nil x)
  | y :: ys => fun x hx => by
    cases List.mem_cons.mp hx with
    | inl h => rw [h]; exact sortArraysByName_idem y
    | inr h => exact sortList_fix ys x h

theorem sortObj_idem : (kvs : List (String × Json)) → sortObj (sortObj kvs) = sortObj kvs
  | [] => rfl
  | (k, v) :: xs => by
    simp only [sortObj]
    rw [sortArraysByName_idem v, sortObj_idem xs]

end


/-!
Validation lemmas: the split-based line/column computation expressed
through newline counts and the length of the trailing line fragment.
-/

/-- Unfolding equation for split at a non-newline head. -/
theorem splitNl_cons_of_ne (c : Char) (cs : List Char) (hc : ¬c = '\n')
    (p : List Char) (ps : List (List Char)) (hs : splitNl cs = p :: ps) :
    splitNl (c :: cs) = (c :: p) :: ps := by
  rw [splitNl, if_neg hc, hs]

theorem splitNl_ne_nil : (l : List Char) → splitNl l ≠ []
  | [] => nofun
  | c :: cs => by
    by_cases hc : c = '\n'
    · rw [splitNl, if_pos hc]
      exact nofun
    · cases hs : splitNl cs with
      | nil => exact absurd hs (splitNl_ne_nil cs)
      | cons p ps =>
        rw [splitNl_cons_of_ne c cs hc p ps hs]
        exact nofun

/-- The number of pieces returned by split is the newline count plus one. -/
theorem length_splitNl : (l : List Char) → (splitNl l).length = l.count '\n' + 1
  | [] => rfl
  | c :: cs => by
    by_cases hc : c = '\n'
    · rw [splitNl, if_pos hc, List.length_cons, length_splitNl cs, List.count_cons]
      simp [hc]
    · cases hs : splitNl cs with
      | nil => exact absurd hs (splitNl_ne_nil cs)
      | cons p ps =>
        rw [splitNl_cons_of_ne c cs hc p ps hs]
        have hlen := length_splitNl cs
        rw [hs, List.length_cons] at hlen
        rw [List.length_cons, List.count_cons]
        have hbeq : (c == '\n') = false := by
          cases hb : c == '\n'
          · rfl
          · exact absurd (eq_of_beq hb) hc
        rw [hbeq]
        simp only [Bool.false_eq_true, reduceIte]
        omega

/-- Number of characters strictly after the last newline of the list (the
whole length when the list has no newline); the column reported by
validate is this value, for the prefix before the error offset, plus one. -/
def lastLineLen : List Char → Nat
  | [] => 0
  | c :: cs =>
    if '\n' ∈ cs then lastLineLen cs
    else if c = '\n' then cs.length
    else cs.length + 1

theorem lastLineLen_of_not_mem : (l : List Char) → '\n' ∉ l → lastLineLen l = l.length
  | [], _ => rfl
  | c :: cs, h => by
    have hcs : '\n' ∉ cs := fun hm => h (List.mem_cons_of_mem c hm)
    have hc : ¬c = '\n' := fun he => h (by rw [he]; exact List.mem_cons_self _ _)
    rw [lastLineLen, if_neg hcs, if_neg hc, List.length_cons]

theorem getLastD_irrel {α : Type} : (l : List α) → l ≠ [] → (d1 d2 : α) →
    l.getLastD d1 = l.getLastD d2
  | [], h, _, _ => absurd rfl h
  | x :: l, _, d1, d2 => by rw [List.getLastD_cons, List.getLastD_cons]

/-- The last piece of the split is the trailing line fragment. -/
theorem getLastD_splitNl_length : (l : List Char) →
    ((splitNl l).getLastD []).length = lastLineLen l
  | [] => rfl
  | c :: cs => by
    by_cases hc : c = '\n'
    · rw [splitNl, if_pos hc, List.getLastD_cons, lastLineLen]
      by_cases hm : '\n' ∈ cs
      · rw [if_pos hm]
        exact getLastD_splitNl_length cs
      · rw [if_neg hm, if_pos hc, getLastD_splitNl_length cs, lastLineLen_of_not_mem cs hm]
    · cases hs : splitNl cs with
      | nil => exact absurd hs (splitNl_ne_nil cs)
      | cons p ps =>
        rw [splitNl_cons_of_ne c cs hc p ps hs]
        cases ps with
        | nil =>
          have hcount := length_splitNl cs
          rw [hs] at hcount
          simp only [List.length_cons, List.length_nil] at hcount
          have hm : '\n' ∉ cs := List.count_eq_zero.mp (by omega)
          rw [lastLineLen, if_neg hm, if_neg hc]
          have hp := getLastD_splitNl_length cs
          rw [hs, lastLineLen_of_not_mem cs hm] at hp
          have hred : ([p] : List (List Char)).getLastD [] = p := rfl
          rw [hred] at hp
          have hred2 : ([c :: p] : List (List Char)).getLastD [] = c :: p := rfl
          rw [hred2, List.length_cons]
          omega
        | cons q qs =>
          have hm : '\n' ∈ cs := by
            have hcount := length_splitNl cs
            rw [hs] at hcount
            by_contra hnm
            rw [List.count_eq_zero.mpr hnm] at hcount
            simp at hcount
          rw [lastLineLen, if_pos hm]
          have hp := getLastD_splitNl_length cs
          rw [hs] at hp
          rw [List.getLastD_cons] at hp ⊢
          rw [getLastD_irrel (q :: qs) nofun (c :: p) p]
          exact hp

/-- The line/column of validate: the line is one plus the number of
newlines in the buffer before the offset, the column is one plus the
number of characters between the last of those newlines and the offset. -/
theorem computeLineCol_eq (s : String) (position : Nat) :
    computeLineCol s position =
      ((s.data.take position).count '\n' + 1, lastLineLen (s.data.take position) + 1) := by
  simp only [computeLineCol]
  rw [length_splitNl, getLastD_splitNl_length]

/-!
Claim theorems.
-/

/-- C1: the claim states that during the single top-down pass a marked
descendant path is always matched against the child's original,
pre-deletion array index.  The code refutes this: the map after the filter
receives the index in the already filtered array, so recursion paths use
shifted positions.  At the failing input below, with marked paths "[0]" and
"[1][0]", the element originally at index 1 (the array holding 2) keeps its
inner element, while the element originally at index 2 (the array holding
3) - shifted onto rebuilt index 1 - loses its inner element: the opposite
of what original-index matching (result .arr [.arr [], .arr [.num 3]])
would produce. -/
theorem C1_shifted_index_eval :
    removeMarkedItems ["[0]", "[1][0]"]
        (.arr [.arr [.num 1], .arr [.num 2], .arr [.num 3]]) "" =
      .arr [.arr [.num 2], .arr []] ∧
      removeMarkedItems ["[0]", "[1][0]"]
          (.arr [.arr [.num 1], .arr [.num 2], .arr [.num 3]]) "" ≠
        .arr [.arr [], .arr [.num 3]] :=
  ⟨by decide, by decide⟩

/-- C2 counterexample: delete-by-path is not idempotent as claimed.  With
marked set containing "[0]" on the two-element array below, one
application drops the first element and the survivor shifts onto index 0,
so a second application (same marked set) deletes it too. -/
theorem C2_counterexample_not_idempotent :
    removeMarkedItems ["[0]"]
        (removeMarkedItems ["[0]"] (.arr [.str ("a"), .str ("b")]) "") "" ≠
      removeMarkedItems ["[0]"] (.arr [.str ("a"), .str ("b")]) "" := by
  decide

/-- C2 (amended): delete-by-path is idempotent provided no marked path
contains a closing bracket (so no marked path addresses an array index):
then no array element is ever dropped, rebuilt indices equal original
indices, and re-application removes nothing new.  With marked array-index
paths the reindexing can shift a surviving element onto a marked position,
as the counterexample shows. -/
theorem C2_amended_idempotent_no_index_paths (marked : List String)
    (hS : ∀ s ∈ marked, (']' : Char) ∉ s.data) (v : Json) (basePath : String) :
    removeMarkedItems marked (removeMarkedItems marked v basePath) basePath =
      removeMarkedItems marked v basePath :=
  removeMarkedItems_idem marked hS v basePath

/-- Witness for the amended C2 at a concrete object input with the marked
key path "a.b". -/
theorem C2_amended_witness :
    (∀ s ∈ (["a.b"] : List String), (']' : Char) ∉ s.data) ∧
      removeMarkedItems ["a.b"]
          (removeMarkedItems ["a.b"]
            (.obj [("a", .obj [("b", .num 1), ("c", .num 2)]), ("d", .num 3)]) "") "" =
        removeMarkedItems ["a.b"]
          (.obj [("a", .obj [("b", .num 1), ("c", .num 2)]), ("d", .num 3)]) "" :=
  ⟨by decide,
    C2_amended_idempotent_no_index_paths ["a.b"] (by decide)
      (.obj [("a", .obj [("b", .num 1), ("c", .num 2)]), ("d", .num 3)]) ""⟩

/-- C6: delete-by-path removes exactly the marked node with its subtree on
the two specification examples: marking "a.b" removes just that entry, and
marking "arr[1]" removes the middle array element with contiguous
reindexing of the rest. -/
theorem C6_delete_examples :
    removeMarkedItems ["a.b"]
        (.obj [("a", .obj [("b", .num 1), ("c", .num 2)]), ("d", .num 3)]) "" =
      .obj [("a", .obj [("c", .num 2)]), ("d", .num 3)] ∧
      removeMarkedItems ["arr[1]"]
          (.obj [("arr", .arr [.num 10, .num 20, .num 30])]) "" =
        .obj [("arr", .arr [.num 10, .num 30])] :=
  ⟨by decide, by decide⟩

/-- C10: delete-by-path with an empty marked set is the identity, at every
base path: same array order, same object keys in insertion order, same
scalars. -/
theorem C10_empty_marked_identity (v : Json) (basePath : String) :
    removeMarkedItems [] v basePath = v :=
  removeMarkedItems_nil_marked v basePath

/-- Specification example input for C3. -/
def c3Input : Json :=
  .obj [("items", .arr [
    .obj [("Name", .str ("b")),
      ("items", .arr [.obj [("Name", .str ("z"))], .obj [("Name", .str ("a"))]])],
    .obj [("Name", .str ("a"))]])]

/-- Expected output of the C3 example: both nesting levels sorted by Name. -/
def c3Expected : Json :=
  .obj [("items", .arr [
    .obj [("Name", .str ("a"))],
    .obj [("Name", .str ("b")),
      ("items", .arr [.obj [("Name", .str ("a"))], .obj [("Name", .str ("z"))]])]])]

/-- C3: the name-sort transform sorts every qualifying array ascending by
the Name field (with localeCompare modelled as code-point comparison),
independently at every nesting depth, as the concrete example shows; in
general a qualifying array is rewritten to the stable sort of its elements
followed by the recursive transform (the literal source form), the sort
output is ascending, ties keep their original relative order (restricting
to any one Name value preserves the input order), and the output is a
permutation of the input. -/
theorem C3_name_sort :
    sortArraysByName c3Input = c3Expected ∧
      (∀ l : List Json, hasNameFields l = true →
        sortArraysByName (.arr l) = .arr ((l.insertionSort nameLe).map sortArraysByName)) ∧
      (∀ l : List Json, (l.insertionSort nameLe).Sorted nameLe) ∧
      (∀ (l : List Json) (s : String),
        (l.insertionSort nameLe).filter (fun y => nameStr y == s) =
          l.filter (fun y => nameStr y == s)) ∧
      (∀ l : List Json, (l.insertionSort nameLe).Perm l) :=
  ⟨by decide,
    fun _ hq => sortArraysByName_arr_of_qual hq,
    fun l => List.sorted_insertionSort nameLe l,
    fun l s => filter_name_insertionSort s l,
    fun l => List.perm_insertionSort nameLe l⟩

/-- Witness for C3 instantiating the qualifying-array clause at a concrete
two-element array. -/
theorem C3_name_sort_witness :
    hasNameFields [.obj [("Name", .str ("b"))], .obj [("Name", .str ("a"))]] = true ∧
      sortArraysByName (.arr [.obj [("Name", .str ("b"))], .obj [("Name", .str ("a"))]]) =
        .arr ((([.obj [("Name", .str ("b"))], .obj [("Name", .str ("a"))]] :
            List Json).insertionSort nameLe).map sortArraysByName) :=
  ⟨by decide,
    C3_name_sort.2.1 [.obj [("Name", .str ("b"))], .obj [("Name", .str ("a"))]] (by decide)⟩

/-- Non-conforming input for C7: the second element has no Name, so the
outer array must keep its order, while the conforming array nested inside
the first element is still sorted. -/
def c7Input : Json := .arr [
  .obj [("Name", .str ("b")),
    ("kids", .arr [.obj [("Name", .str ("z"))], .obj [("Name", .str ("a"))]])],
  .obj [("id", .num 1)]]

/-- Expected output of the C7 example: outer order unchanged, nested array
sorted. -/
def c7Expected : Json := .arr [
  .obj [("Name", .str ("b")),
    ("kids", .arr [.obj [("Name", .str ("a"))], .obj [("Name", .str ("z"))]])],
  .obj [("id", .num 1)]]

/-- C7: an array is reordered only if it is non-empty and every element is
a non-null object with a string Name; any non-qualifying array keeps its
element order exactly and only has its elements recursively transformed,
as both the general equation and the concrete example (second element
lacks Name, nested conforming array still sorted) show. -/
theorem C7_non_conforming_arrays_kept :
    (∀ l : List Json, hasNameFields l = false →
      sortArraysByName (.arr l) = .arr (l.map sortArraysByName)) ∧
      sortArraysByName c7Input = c7Expected :=
  ⟨fun _ hq => sortArraysByName_arr_of_not_qual hq, by decide⟩

/-- Witness for C7 instantiating the non-qualifying clause at a concrete
array whose single element is a number. -/
theorem C7_non_conforming_witness :
    hasNameFields [Json.num 1] = false ∧
      sortArraysByName (.arr [.num 1]) = .arr (([Json.num 1]).map sortArraysByName) :=
  ⟨by decide, C7_non_conforming_arrays_kept.1 [Json.num 1] (by decide)⟩

/-- C9: the recursive name-sort transform is idempotent: transforming a
transformed value changes nothing, at every nesting depth. -/
theorem C9_sort_idempotent (v : Json) :
    sortArraysByName (sortArraysByName v) = sortArraysByName v :=
  sortArraysByName_idem v

/-- C4 counterexample: the claim computes the column as the offset minus
the index of the last preceding newline minus one.  In the buffer below
the parse offset 5 has its last preceding newline at index 3, so the claim
predicts column 5 - 3 - 1 = 1, but validate reports column 2 (the length
of the fragment after the newline plus one). -/
theorem C4_counterexample_column_off_by_one :
    computeLineCol ("[1,\n2!") 5 = (2, 2) ∧
      ("[1,\n2!" : String).data.getD 3 ' ' = '\n' ∧
      ("[1,\n2!" : String).data.getD 4 ' ' = '2' ∧
      ¬(2 : Nat) = 5 - 3 - 1 :=
  ⟨by decide, by decide, by decide, by decide⟩

/-- C4 (amended): for every buffer and recoverable offset the reported
line is one plus the number of newlines strictly before the offset, and
the column is the offset minus the index of the last preceding newline
(one plus the number of characters between that newline and the offset;
one plus the offset when no newline precedes it) - not minus one more;
with no recoverable offset the result defaults to line 1, column 1. -/
theorem C4_amended_line_col (s : String) (position : Nat) (msg : String) :
    computeLineCol s position =
      ((s.data.take position).count '\n' + 1, lastLineLen (s.data.take position) + 1) ∧
      (validate (.syntaxError msg (some position)) s).line =
        some (computeLineCol s position).1 ∧
      (validate (.syntaxError msg (some position)) s).column =
        some (computeLineCol s position).2 ∧
      (validate (.syntaxError msg none) s).line = some 1 ∧
      (validate (.syntaxError msg none) s).column = some 1 :=
  ⟨computeLineCol_eq s position, rfl, rfl, rfl, rfl⟩

/-- C8: validation is total on the modelled outcomes and never escapes: a
successful parse yields the bare valid result, every failure yields a
structured result with valid false and an error message, the line and
column are at least one whenever an offset is recoverable, and the
defaults are line 1 column 1 without an offset and a plain message for a
non-SyntaxError throw. -/
theorem C8_validation_total_structured (s msg : String) (position : Nat) :
    validate .ok s = ⟨true, none, none, none⟩ ∧
      (validate (.syntaxError msg (some position)) s).valid = false ∧
      (validate (.syntaxError msg (some position)) s).error.isSome = true ∧
      (validate (.syntaxError msg (some position)) s).line =
        some ((s.data.take position).count '\n' + 1) ∧
      (validate (.syntaxError msg (some position)) s).column =
        some (lastLineLen (s.data.take position) + 1) ∧
      1 ≤ (s.data.take position).count '\n' + 1 ∧
      1 ≤ lastLineLen (s.data.take position) + 1 ∧
      (validate (.syntaxError msg none) s).valid = false ∧
      (validate (.syntaxError msg none) s).error.isSome = true ∧
      (validate (.syntaxError msg none) s).line = some 1 ∧
      (validate (.syntaxError msg none) s).column = some 1 ∧
      validate .otherError s =
        ⟨false, some ("Unknown JSON parsing error"), none, none⟩ := by
  refine ⟨rfl, rfl, rfl, ?_, ?_, Nat.succ_le_succ (Nat.zero_le _),
    Nat.succ_le_succ (Nat.zero_le _), rfl, rfl, rfl, rfl, rfl⟩
  · show some (computeLineCol s position).1 = _
    rw [computeLineCol_eq]
  · show some (computeLineCol s position).2 = _
    rw [computeLineCol_eq]

/-- Concrete session for the C5 counterexample: one marked path, unsaved
changes pending. -/
def c5Session : Session :=
  ⟨"\x7b\"a\":1\x7d", .obj [("a", .num 1)], ["a"], true, none⟩

/-- C5 counterexample: when the save request fails after validation
succeeded, the prior in-memory state is NOT retained unchanged: the marked
set has already been cleared and the raw text buffer already replaced by
the transformed content before the request was issued; only the dirty
flag survives. -/
theorem C5_counterexample_cleared_before_persist :
    (handleSave c5Session (.returned true none)
        (some (.obj [("a", .num 1)])) false).markedForDeletion = [] ∧
      c5Session.markedForDeletion = ["a"] ∧
      ¬(handleSave c5Session (.returned true none)
          (some (.obj [("a", .num 1)])) false).rawContent = c5Session.rawContent ∧
      (handleSave c5Session (.returned true none)
          (some (.obj [("a", .num 1)])) false).hasUnsavedChanges = true :=
  ⟨by decide, by decide, by decide, by decide⟩

/-- C5 (amended): a validation-request failure or a negative validation
verdict aborts the save and retains all state except the validation error
(no partial save), and so does a parse throw; once the parse succeeds the
marked set is cleared and the raw text and structured value are replaced
by the transformed content BEFORE the save request, regardless of its
outcome; the dirty flag alone waits for the request: it is reset exactly
when the request succeeds and keeps its prior value when it fails. -/
theorem C5_amended_state_updates (sess : Session) (e : Option String)
    (parsed : Option Json) (v : Json) (persistOk : Bool) :
    handleSave sess .failed parsed persistOk = { sess with validationError := none } ∧
      handleSave sess (.returned false e) parsed persistOk =
        { sess with validationError := some (e.getD ("Invalid JSON")) } ∧
      handleSave sess (.returned true e) none persistOk =
        { sess with validationError := some ("Failed to parse JSON") } ∧
      (handleSave sess (.returned true e) (some v) persistOk).markedForDeletion = [] ∧
      (handleSave sess (.returned true e) (some v) persistOk).rawContent =
        stringify2 (sortArraysByName (if sess.markedForDeletion.isEmpty then v
          else removeMarkedItems sess.markedForDeletion v "")) ∧
      (handleSave sess (.returned true e) (some v) persistOk).jsonContent =
        sortArraysByName (if sess.markedForDeletion.isEmpty then v
          else removeMarkedItems sess.markedForDeletion v "") ∧
      (handleSave sess (.returned true e) (some v) persistOk).validationError = none ∧
      (handleSave sess (.returned true e) (some v) false).hasUnsavedChanges =
        sess.hasUnsavedChanges ∧
      (handleSave sess (.returned true e) (some v) true).hasUnsavedChanges = false := by
  refine ⟨rfl, rfl, rfl, ?_, ?_, ?_, ?_, rfl, rfl⟩ <;>
    cases persistOk <;> cases hm : sess.markedForDeletion.isEmpty <;>
      simp only [handleSave, hm, reduceIte] <;>
      first
        | rfl
        | exact List.isEmpty_eq_true.mp hm
